import Mathlib

/-!
Verification of the oozie-to-airflow converter core
(converter/parser.py, converter/converter.py, mappers/fs_mapper.py)
against its natural-language specification.

The Python source is shallowly embedded: the parser state (an ordered
dict of name -> ParsedNode) becomes an association list, Python sets
become Finsets, and fallible code returns Except String.  The class
ParsedNode and the helper find_node_by_name are not part of the given
sources (only their callers are), so they are modelled from the spec;
their definitions say so in their doc comments.
-/

set_option maxRecDepth 10000

/-- Trigger policy assigned to a node.  The four values correspond to the
four rows of the trigger-policy table of the spec: run only when all
upstream dependencies succeeded, run only when the upstream dependency
failed, run regardless of upstream outcome, and the unconstrained /
entry-node default. -/
inductive TriggerPolicy where
  | allSuccess
  | oneFailed
  | allDone
  | dummy
deriving DecidableEq, Repr

/-- Modelled from the spec: the trigger-policy table of the Trigger-Rule
Resolver, mapping the pair (is_reachable_on_success, is_reachable_on_error)
to the activation policy.  This is the body of
ParsedNode.update_trigger_rule, whose file (converter/parsed_node.py) is
not among the given sources. -/
def policyOf : Bool → Bool → TriggerPolicy
  | true, false => .allSuccess
  | false, true => .oneFailed
  | true, true => .allDone
  | false, false => .dummy

/-- Modelled from the spec: one ParsedNode of converter/parsed_node.py
(file not among the given sources; its interface is used by
converter/parser.py).  mapperType records which mapper the node was built
with (the control tag, the action sub-type, or "null" for the prepare
placeholder).  firstTaskId and lastTaskId are the boundary elements of the
mapper's primitive-unit decomposition, downstreamNames the ordered success
edges, errorName the optional failure edge, and is_ok / is_error the two
reachability flags set by the Trigger-Rule pass. -/
structure PNode where
  mapperType : String
  firstTaskId : String
  lastTaskId : String
  downstreamNames : List String
  errorName : Option String
  is_ok : Bool
  is_error : Bool
  triggerRule : TriggerPolicy
deriving DecidableEq, Repr

/-- Modelled from the spec: ParsedNode.add_downstream_node_name appends a
success-edge target. -/
def PNode.add_downstream_node_name (p : PNode) (n : String) : PNode :=
  { p with downstreamNames := p.downstreamNames ++ [n] }

/-- Modelled from the spec: ParsedNode.set_is_ok sets the
reachable-on-success flag. -/
def PNode.set_is_ok (p : PNode) (b : Bool) : PNode :=
  { p with is_ok := b }

/-- Modelled from the spec: ParsedNode.set_is_error sets the
reachable-on-error flag. -/
def PNode.set_is_error (p : PNode) (b : Bool) : PNode :=
  { p with is_error := b }

/-- Modelled from the spec: ParsedNode.update_trigger_rule recomputes the
node's trigger policy from its two reachability flags, per the
trigger-policy table. -/
def PNode.update_trigger_rule (p : PNode) : PNode :=
  { p with triggerRule := policyOf p.is_ok p.is_error }

/-- The parser's node mapping self.nodes: an insertion-ordered dictionary
from node name to ParsedNode, embedded as an association list. -/
abbrev Nodes := List (String × PNode)

/-- Dictionary read: Python self.nodes[k], as an Option. -/
def dictGet (m : Nodes) (k : String) : Option PNode :=
  (m.find? (fun q => q.1 = k)).map (fun q => q.2)

/-- Python membership test k in self.nodes. -/
def hasKey (m : Nodes) (k : String) : Bool :=
  m.any (fun q => q.1 = k)

/-- Replace the value stored under a key (all entries with that key, of
which a well-formed dictionary has at most one), leaving the rest of the
list untouched.  This is the building block both for Python dict
assignment to an existing key and for in-place mutation of the ParsedNode
object stored under a key. -/
def updAt (m : Nodes) (k : String) (f : PNode → PNode) : Nodes :=
  m.map (fun q => if q.1 = k then (q.1, f q.2) else q)

/-- Python dict assignment self.nodes[k] = v: overwrite in place when the
key exists, append otherwise. -/
def dictInsert (m : Nodes) (k : String) (v : PNode) : Nodes :=
  if hasKey m k then updAt m k (fun _ => v) else m ++ [(k, v)]

/-- Embeds self.nodes[downstream].set_is_ok(True) from
OozieParser.update_trigger_rules: a missing key is a Python KeyError. -/
def nodesSetIsOk (m : Nodes) (k : String) : Except String Nodes :=
  if hasKey m k then .ok (updAt m k (fun p => p.set_is_ok true))
  else .error ("KeyError: " ++ k)

/-- Embeds self.nodes[error_name].set_is_error(True) from
OozieParser.update_trigger_rules. -/
def nodesSetIsError (m : Nodes) (k : String) : Except String Nodes :=
  if hasKey m k then .ok (updAt m k (fun p => p.set_is_error true))
  else .error ("KeyError: " ++ k)

/-- One iteration of the loop of OozieParser.update_trigger_rules, for the
node stored under key k: flip the is_ok bit of every downstream target,
flip the is_error bit of the error target if any, then recompute this
node's own trigger rule from its current flags. -/
def update_trigger_rules_step (m : Nodes) (k : String) : Except String Nodes :=
  match dictGet m k with
  | none => .error ("KeyError: " ++ k)
  | some node => do
    let m1 ← node.downstreamNames.foldlM (fun acc d => nodesSetIsOk acc d) m
    let m2 ← match node.errorName with
      | some e => nodesSetIsError m1 e
      | none => pure m1
    pure (updAt m2 k PNode.update_trigger_rule)

/-- Embeds OozieParser.update_trigger_rules: iterate over the values of
self.nodes in insertion order, performing update_trigger_rules_step for
each.  The iteration is over the (fixed) key sequence; each step reads the
node's current state, as the Python loop observes in-place mutations made
by earlier iterations. -/
def update_trigger_rules (m : Nodes) : Except String Nodes :=
  (m.map Prod.fst).foldlM update_trigger_rules_step m

/-- Embeds the Relation named tuple of converter/parser.py (constructed
with keyword arguments from_name and to_name): a resolved edge between two
primitive-execution-unit identifiers. -/
structure Relation where
  from_name : String
  to_name : String
deriving DecidableEq, Repr

/-- The body of the loop of OozieParser.create_relations for one
ParsedNode: add a relation from this node's last task id to the first task
id of every downstream target, then one more to the error target's first
task id when the error name is set.  A reference to a name absent from
self.nodes is a Python KeyError. -/
def create_relations_node (m : Nodes) (rels : Finset Relation) (p : PNode) :
    Except String (Finset Relation) := do
  let rels ← p.downstreamNames.foldlM (fun acc d =>
    match dictGet m d with
    | some dn => pure (insert (Relation.mk p.lastTaskId dn.firstTaskId) acc)
    | none => Except.error ("KeyError: " ++ d)) rels
  match p.errorName with
  | some e =>
    match dictGet m e with
    | some en => pure (insert (Relation.mk p.lastTaskId en.firstTaskId) rels)
    | none => Except.error ("KeyError: " ++ e)
  | none => pure rels

/-- Embeds OozieParser.create_relations: fold the per-node step over the
values of self.nodes, accumulating into the relation set (the Python code
adds into self.relations, which starts out empty in a fresh parser). -/
def create_relations (m : Nodes) (rels0 : Finset Relation) :
    Except String (Finset Relation) :=
  m.foldlM (fun acc q => create_relations_node m acc q.2) rels0

/-- Embeds OozieParser.get_relations: create the relations when the stored
set is empty, otherwise return it unchanged. -/
def get_relations (m : Nodes) (rels : Finset Relation) :
    Except String (Finset Relation) :=
  if rels = ∅ then create_relations m rels else .ok rels

deriving instance DecidableEq for Except

/-- An element of the parsed workflow XML (xml.etree.ElementTree.Element):
a tag, an attribute dictionary, and the list of child elements. -/
inductive XmlElem where
  | mk (tag : String) (attrs : List (String × String)) (children : List XmlElem)

def XmlElem.tag : XmlElem → String
  | .mk t _ _ => t

def XmlElem.attrs : XmlElem → List (String × String)
  | .mk _ a _ => a

def XmlElem.children : XmlElem → List XmlElem
  | .mk _ _ c => c

/-- Python node.attrib.get(k): attribute lookup as an Option. -/
def XmlElem.attr (e : XmlElem) (k : String) : Option String :=
  (e.attrs.find? (fun q => q.1 = k)).map (fun q => q.2)

/-- Python node.attrib[k]: attribute lookup where a missing key is a
KeyError. -/
def getAttr (e : XmlElem) (k : String) : Except String String :=
  match e.attr k with
  | some v => .ok v
  | none => .error ("KeyError: " ++ k)

/-- Python node.find(t) of ElementTree: the first direct child whose tag
equals t, if any. -/
def XmlElem.findChild (e : XmlElem) (t : String) : Option XmlElem :=
  e.children.find? (fun c => c.tag = t)

/-- The Python substring test sub in s, used by OozieParser.parse_node to
dispatch on tags and by parse_fork_node to recognize path children. -/
def strContains (s sub : String) : Bool :=
  (List.range (s.length + 1)).any (fun i => (s.toList.drop i).take sub.length = sub.toList)

/-- Python s.split(c) for a one-character separator, on character lists. -/
def splitAux (c : Char) : List Char → List (List Char)
  | [] => [[]]
  | x :: xs =>
    let r := splitAux c xs
    if x = c then [] :: r
    else
      match r with
      | [] => [[x]]
      | h :: t => (x :: h) :: t

/-- Embeds the namespace stripping of OozieParser.parse_workflow:
tag.split with separator right brace, then element 1 of the result.  A tag
without the separator makes the index access a Python IndexError. -/
def stripNamespace (tag : String) : Except String String :=
  match (splitAux '}' tag.toList).get? 1 with
  | some t => .ok (String.mk t)
  | none => .error "IndexError: list index out of range"

/-- Python value.replace of parse_workflow with the one-character pattern
hyphen and replacement underscore: replace every hyphen by an
underscore. -/
def replaceDashes (s : String) : String :=
  String.mk (s.toList.map (fun c => if c = '-' then '_' else c))

/-- The attribute normalization of OozieParser.parse_workflow: the name,
to, error and start attributes, when present, have their hyphens replaced
by underscores. -/
def normalizeAttrs (l : List (String × String)) : List (String × String) :=
  l.map (fun q =>
    if q.1 = "name" ∨ q.1 = "to" ∨ q.1 = "error" ∨ q.1 = "start"
    then (q.1, replaceDashes q.2) else q)

/-- The first loop of OozieParser.parse_workflow (over tree.iter(), i.e.
every element of the tree, the root included): strip the namespace from
every tag and normalize the four name-carrying attributes.  Recursion is
by fuel since the recursion of the source is over an arbitrary tree. -/
def normalizeTree : Nat → XmlElem → Except String XmlElem
  | 0, _ => .error "fuel exhausted"
  | fuel + 1, e => do
    let t ← stripNamespace e.tag
    let c ← e.children.mapM (normalizeTree fuel)
    pure (XmlElem.mk t (normalizeAttrs e.attrs) c)

/-- Modelled from the spec: utils.xml_utils.find_node_by_name (file not
among the given sources), used by parse_fork_node to locate the workflow
node that a fork path's start attribute references: the first root-level
node carrying that name. -/
def find_node_by_name (root : XmlElem) (n : String) : Option XmlElem :=
  root.children.find? (fun c => c.attr "name" = some n)

/-- Embeds root.remove(path) of parse_fork_node.  ElementTree removes the
given child by identity; the removed element was obtained by
find_node_by_name, so it is the first root-level child carrying its name,
which is how this embedding identifies it. -/
def XmlElem.removeChildNamed (root : XmlElem) (n : String) : XmlElem :=
  XmlElem.mk root.tag root.attrs
    (match root.children.findIdx? (fun c => c.attr "name" = some n) with
     | some i => root.children.eraseIdx i
     | none => root.children)

/-- The capability surface of one mapper class of the Action-Mapper
Registry, as queried by OozieParser.parse_action_node: whether the mapper
declares a prepare step (mapper.has_prepare), derives from FileMixin, and
derives from ArchiveMixin.  Individual mapper internals are external
collaborators and are not modelled. -/
structure MapperClass where
  hasPrepare : Bool
  fileCapable : Bool
  archiveCapable : Bool
deriving DecidableEq, Repr

/-- The action_map of the parser: action sub-type tag to mapper class. -/
abbrev ActionMap := List (String × MapperClass)

/-- The parser state carried by the node-parsing routines: self.nodes plus
a counter standing in for the uuid4 suffix source of parse_start_node.
The dependency-set bookkeeping (self.dependencies, a string set merely
unioned from mapper.required_imports) is not modelled; no claim concerns
it. -/
structure PState where
  nodes : Nodes
  uuidCounter : Nat
deriving DecidableEq, Repr

/-- A ParsedNode fresh from parsing, before the Trigger-Rule pass: both
reachability flags false.  Control mappers are single-unit strategies, so
first and last task id are the node name (modelled from the spec for the
missing mapper sources); the initial trigger rule is the given one. -/
def freshPNode (mapperType name : String) (downstream : List String)
    (errorName : Option String) (rule : TriggerPolicy) : PNode :=
  { mapperType := mapperType, firstTaskId := name, lastTaskId := name,
    downstreamNames := downstream, errorName := errorName,
    is_ok := false, is_error := false, triggerRule := rule }

/-- Embeds OozieParser.parse_kill_node: a kill node is mapped with
TriggerRule.ONE_FAILED and stored under its name attribute. -/
def parse_kill_node (st : PState) (killNode : XmlElem) : Except String PState := do
  let name ← getAttr killNode "name"
  let v := freshPNode "kill" name [] none .oneFailed
  pure { st with nodes := dictInsert st.nodes name v }

/-- Embeds OozieParser.parse_end_node: a dummy node stored under the name
attribute. -/
def parse_end_node (st : PState) (endNode : XmlElem) : Except String PState := do
  let name ← getAttr endNode "name"
  let v := freshPNode "end" name [] none .dummy
  pure { st with nodes := dictInsert st.nodes name v }

/-- Embeds OozieParser.parse_join_node: one downstream edge, read from the
to attribute. -/
def parse_join_node (st : PState) (joinNode : XmlElem) : Except String PState := do
  let name ← getAttr joinNode "name"
  let toName ← getAttr joinNode "to"
  let v := freshPNode "join" name [toName] none .dummy
  pure { st with nodes := dictInsert st.nodes name v }

/-- Embeds OozieParser.parse_decision_node: one downstream edge per child
of the node's first child (the switch element), each read from the to
attribute; no children at all is a Python IndexError. -/
def parse_decision_node (st : PState) (decisionNode : XmlElem) : Except String PState := do
  let name ← getAttr decisionNode "name"
  let switch ← match decisionNode.children.head? with
    | some c => pure c
    | none => Except.error "IndexError: list index out of range"
  let downs ← switch.children.foldlM (fun acc c => do
    let t ← getAttr c "to"
    pure (acc ++ [t])) []
  let v := freshPNode "decision" name downs none .dummy
  pure { st with nodes := dictInsert st.nodes name v }

/-- Embeds OozieParser.parse_start_node: the start node gets a freshly
generated internal name with a short unique suffix (the uuid4 randomness
of the source is modelled from the spec as a counter-supplied fresh
suffix) and one downstream edge from the to attribute. -/
def parse_start_node (st : PState) (startNode : XmlElem) : Except String PState := do
  let startName := "start_node_" ++ toString st.uuidCounter
  let toName ← getAttr startNode "to"
  let v := freshPNode "start" startName [toName] none .dummy
  pure { nodes := dictInsert st.nodes startName v, uuidCounter := st.uuidCounter + 1 }

/-- Embeds OozieParser._parse_file_nodes: when the action element has file
children, an operator not deriving from FileMixin is a fatal error; the
file paths themselves are accumulated inside the mapper, which is not
modelled. -/
def parse_file_nodes (actionNode : XmlElem) (cls : MapperClass) : Except String Unit :=
  if (actionNode.children.filter (fun c => c.tag = "file")).isEmpty then .ok ()
  else if cls.fileCapable then .ok ()
  else .error "The operator does not derive from FileMixin"

/-- Embeds OozieParser._parse_archive_nodes, symmetrically. -/
def parse_archive_nodes (actionNode : XmlElem) (cls : MapperClass) : Except String Unit :=
  if (actionNode.children.filter (fun c => c.tag = "archive")).isEmpty then .ok ()
  else if cls.archiveCapable then .ok ()
  else .error "The operator does not derive from ArchiveMixin"

/-- Embeds OozieParser.parse_action_node.  The action sub-type is the tag
of the node's first child (IndexError when there is none), falling back to
the designated unknown entry of the action map when unrecognized; the
mapper is constructed with the node's name attribute; a missing ok or
error child is a fatal error; the ok target is appended to the downstream
names and the error target becomes the error name; file and archive
children are checked against the mapper's capabilities; finally, when the
mapper declares a prepare step, a placeholder ParsedNode with a NullMapper
is stored under mapper.name, and then the real ParsedNode is stored under
mapper.name as well. -/
def parse_action_node (amap : ActionMap) (st : PState) (a : XmlElem) :
    Except String PState := do
  let firstChild ← match a.children.head? with
    | some c => pure c
    | none => Except.error "IndexError: list index out of range"
  let actionName :=
    if (amap.find? (fun q => q.1 = firstChild.tag)).isSome then firstChild.tag
    else "unknown"
  let cls ← match amap.find? (fun q => q.1 = actionName) with
    | some q => pure q.2
    | none => Except.error ("KeyError: " ++ actionName)
  let name ← getAttr a "name"
  let okNode ← match a.findChild "ok" with
    | some c => pure c
    | none => Except.error "Missing ok node"
  let okTo ← getAttr okNode "to"
  let errNode ← match a.findChild "error" with
    | some c => pure c
    | none => Except.error "Missing error node"
  let errTo ← getAttr errNode "to"
  parse_file_nodes a cls
  parse_archive_nodes a cls
  let p := freshPNode actionName name [okTo] (some errTo) .dummy
  let st1 := if cls.hasPrepare
    then { st with nodes := dictInsert st.nodes name (freshPNode "null" name [] none .dummy) }
    else st
  pure { st1 with nodes := dictInsert st1.nodes name p }

/-- The body of OozieParser.parse_fork_node, parameterized by the
recursive entry point parse_node for the sub-tree parses: store a dummy
fork node, collect the start node of every path child by name from the
root, then for each path append it to the fork's downstream names,
recursively parse it, and remove it from the root's further traversal when
its name is absent from self.nodes after that parse. -/
def parse_fork_node_body
    (parseSub : XmlElem → PState → XmlElem → Except String (PState × XmlElem))
    (root : XmlElem) (st : PState) (forkNode : XmlElem) :
    Except String (PState × XmlElem) := do
  let forkName ← getAttr forkNode "name"
  let paths ← forkNode.children.foldlM (fun acc c =>
    if strContains c.tag "path" then do
      let s ← getAttr c "start"
      match find_node_by_name root s with
      | some el => pure (acc ++ [el])
      | none => Except.error ("Node not found: " ++ s)
    else pure acc) []
  let forkP := freshPNode "fork" forkName [] none .dummy
  let st1 := { st with nodes := dictInsert st.nodes forkName forkP }
  paths.foldlM (fun pr path => do
    let pname ← getAttr path "name"
    let st2 := { pr.1 with nodes := updAt pr.1.nodes forkName (fun p => p.add_downstream_node_name pname) }
    let (st3, root3) ← parseSub pr.2 st2 path
    if hasKey st3.nodes pname then pure (st3, root3)
    else pure (st3, root3.removeChildNamed pname)) (st1, root)

/-- Embeds OozieParser.parse_node: route by substring match on the tag to
the per-type builder, silently skipping unknown tags.  The root travels
along because fork parsing may prune it.  Recursion is by fuel since the
source recursion is through references resolved by name in the tree. -/
def parse_node : Nat → ActionMap → XmlElem → PState → XmlElem →
    Except String (PState × XmlElem)
  | 0, _, _, _, _ => .error "fuel exhausted"
  | fuel + 1, amap, root, st, node =>
    if strContains node.tag "action" then
      (parse_action_node amap st node).map (fun s => (s, root))
    else if strContains node.tag "start" then
      (parse_start_node st node).map (fun s => (s, root))
    else if strContains node.tag "kill" then
      (parse_kill_node st node).map (fun s => (s, root))
    else if strContains node.tag "end" then
      (parse_end_node st node).map (fun s => (s, root))
    else if strContains node.tag "fork" then
      parse_fork_node_body (fun r s n => parse_node fuel amap r s n) root st node
    else if strContains node.tag "join" then
      (parse_join_node st node).map (fun s => (s, root))
    else if strContains node.tag "decision" then
      (parse_decision_node st node).map (fun s => (s, root))
    else .ok (st, root)

/-- Embeds OozieParser.parse_fork_node: the fork body with the recursive
sub-tree parses performed by parse_node at the given fuel. -/
def parse_fork_node (fuel : Nat) (amap : ActionMap) :
    XmlElem → PState → XmlElem → Except String (PState × XmlElem) :=
  parse_fork_node_body (parse_node fuel amap)

/-- The root-level loop of OozieParser.parse_workflow: a Python for
statement over the live child list of the root, i.e. an index-based walk
of a list that fork parsing may prune along the way. -/
def parse_workflow_loop : Nat → ActionMap → PState → XmlElem → Nat →
    Except String (PState × XmlElem)
  | 0, _, _, _, _ => .error "fuel exhausted"
  | fuel + 1, amap, st, root, i =>
    match root.children.get? i with
    | none => .ok (st, root)
    | some node => do
      let (st', root') ← parse_node fuel amap root st node
      parse_workflow_loop fuel amap st' root' (i + 1)

/-- Embeds OozieParser.parse_workflow: normalize the whole tree (strip
namespaces, replace hyphens in names), then parse every root-level
node. -/
def parse_workflow (fuel : Nat) (amap : ActionMap) (root0 : XmlElem) :
    Except String (PState × XmlElem) := do
  let root ← normalizeTree fuel root0
  parse_workflow_loop fuel amap { nodes := [], uuidCounter := 0 } root 0

/-- The two output actions of OozieConverter.convert, in source order:
_recreate_output_directory (an rmtree plus makedirs) and create_dag_file
(the write of the generated DAG file). -/
inductive OutputEffect where
  | recreateOutputDirectory
  | writeDagFile
deriving DecidableEq, Repr

/-- The computation phases of OozieConverter.convert, in source order:
parse the workflow, build the relation set via get_relations, read the
node table, and run the Trigger-Rule pass.  (The dependency read,
get_dependencies, is a pure field access and carries no failure or
effect.) -/
def convert_phases (fuel : Nat) (amap : ActionMap) (root0 : XmlElem) :
    Except String (Nodes × Finset Relation) := do
  let (st, _root) ← parse_workflow fuel amap root0
  let rels ← get_relations st.nodes ∅
  let nodesAfter ← update_trigger_rules st.nodes
  pure (nodesAfter, rels)

/-- Embeds OozieConverter.convert: all computation phases run first, and
only then does the method recreate the output directory and write the DAG
file.  The value component is the converter's in-memory result (final
nodes and relations); the effect list records which output actions ran, so
an error in any computation phase produces the empty effect list. -/
def convert (fuel : Nat) (amap : ActionMap) (root0 : XmlElem) :
    Except String (Nodes × Finset Relation) × List OutputEffect :=
  match convert_phases fuel amap root0 with
  | .error e => (.error e, [])
  | .ok r => (.ok r, [.recreateOutputDirectory, .writeDagFile])

/-- The keys of the FS_OPERATION_MAPPERS dispatch table of
mappers/fs_mapper.py.  Its values build hadoop-fs command strings from the
operation element; the command text is template rendering, external to the
graph logic, and is not modelled. -/
def FS_OPERATION_MAPPERS : List String :=
  ["mkdir", "delete", "move", "chmod", "touchz", "chgrp", "setrep"]

/-- The SubOperator named tuple of mappers/fs_mapper.py, reduced to its
task_id; the rendered_template field is external template output. -/
structure SubOperator where
  task_id : String
deriving DecidableEq, Repr

/-- Embeds chain of mappers/fs_mapper.py: one relation per consecutive
pair of sub-operators (zip of the list with its own tail). -/
def chain (ops : List SubOperator) : List Relation :=
  (ops.zip ops.tail).map (fun q => Relation.mk q.1.task_id q.2.task_id)

/-- Embeds FsMapper.parse_fs_action: the sub-operator task id is the
mapper name with an _fs_ index suffix; an operation tag outside the
dispatch table is a fatal error. -/
def parse_fs_action (name : String) (index : Nat) (node : XmlElem) :
    Except String SubOperator :=
  if FS_OPERATION_MAPPERS.contains node.tag then
    .ok (SubOperator.mk (name ++ "_fs_" ++ toString index))
  else .error ("Unknown FS operation: " ++ node.tag)

/-- Embeds FsMapper.get_sub_operators: with no operation children, a
single dummy sub-operator named after the mapper; otherwise one
sub-operator per child, indexed by enumeration order. -/
def get_sub_operators (name : String) (oozieNode : XmlElem) :
    Except String (List SubOperator) :=
  if oozieNode.children.length = 0 then .ok [SubOperator.mk name]
  else oozieNode.children.enum.mapM (fun q => parse_fs_action name q.1 q.2)

/-- Embeds FsMapper.get_first_task_id: element 0 of the sub-operator
list. -/
def get_first_task_id (name : String) (oozieNode : XmlElem) :
    Except String String := do
  let ops ← get_sub_operators name oozieNode
  match ops.head? with
  | some o => pure o.task_id
  | none => Except.error "IndexError: list index out of range"

/-- Embeds FsMapper.get_last_task_id: element -1 of the sub-operator
list. -/
def get_last_task_id (name : String) (oozieNode : XmlElem) :
    Except String String := do
  let ops ← get_sub_operators name oozieNode
  match ops.getLast? with
  | some o => pure o.task_id
  | none => Except.error "IndexError: list index out of range"

/-- The relations that the create_relations loop derives from one
ParsedNode: one per downstream target, plus one for the error target when
set, always sourced at the node's last task id and aimed at the target's
first task id. -/
def relFromNode (m : Nodes) (p : PNode) (r : Relation) : Prop :=
  (∃ d ∈ p.downstreamNames, ∃ dn, dictGet m d = some dn ∧
    r = Relation.mk p.lastTaskId dn.firstTaskId) ∨
  (∃ e, p.errorName = some e ∧ ∃ en, dictGet m e = some en ∧
    r = Relation.mk p.lastTaskId en.firstTaskId)

/-- All names referenced by one ParsedNode resolve in the node mapping. -/
def resolvedNode (m : Nodes) (p : PNode) : Prop :=
  (∀ d ∈ p.downstreamNames, hasKey m d = true) ∧
  (∀ e, p.errorName = some e → hasKey m e = true)

instance (m : Nodes) (p : PNode) : Decidable (resolvedNode m p) := by
  unfold resolvedNode
  infer_instance

/-- The shape of the entry stored under a key: its downstream list and
error name, the parts of a ParsedNode never mutated by the Trigger-Rule
pass. -/
def shapeAt (m : Nodes) (j : String) : Option (List String × Option String) :=
  (dictGet m j).map (fun p => (p.downstreamNames, p.errorName))

/-- The is_ok flag of the entry stored under a key. -/
def okFlagAt (m : Nodes) (j : String) : Option Bool :=
  (dictGet m j).map (fun p => p.is_ok)

/-- The is_error flag of the entry stored under a key. -/
def errFlagAt (m : Nodes) (j : String) : Option Bool :=
  (dictGet m j).map (fun p => p.is_error)

/-- The concrete scenario of the spec: start -> A, A (ok -> B, error -> K),
B (ok -> end, error -> K), kill K, end, as left by the parser (flags
clear, kill mapped with ONE_FAILED). -/
def demoGraph : Nodes :=
  [("start_node_0", freshPNode "start" "start_node_0" ["A"] none .dummy),
   ("A", freshPNode "ssh" "A" ["B"] (some "K") .dummy),
   ("B", freshPNode "ssh" "B" ["end"] (some "K") .dummy),
   ("K", freshPNode "kill" "K" [] none .oneFailed),
   ("end", freshPNode "end" "end" [] none .dummy)]

/-- The two-node counterexample to trigger-policy order independence: A
carries no edges, B's ok edge aims at A. -/
def cexA : PNode := freshPNode "end" "A" [] none .dummy

/-- The node whose downstream names contain A. -/
def cexB : PNode := freshPNode "join" "B" ["A"] none .dummy

/-- The node set parsed with A inserted first. -/
def cexOrder1 : Nodes := [("A", cexA), ("B", cexB)]

/-- The same node set with B inserted first. -/
def cexOrder2 : Nodes := [("B", cexB), ("A", cexA)]

/-- A kill node named K. -/
def killK : XmlElem := .mk "kill" [("name", "K")] [.mk "message" [] []]

/-- An end node also named K. -/
def endK : XmlElem := .mk "end" [("name", "K")] []

/-- An action map in which the hive mapper declares a prepare step. -/
def prepMap : ActionMap :=
  [("unknown", MapperClass.mk false false false),
   ("hive", MapperClass.mk true true true)]

/-- An action node of sub-type hive with both edges present. -/
def prepAction : XmlElem :=
  .mk "action" [("name", "task")]
    [.mk "hive" [] [], .mk "ok" [("to", "E")] [], .mk "error" [("to", "K")] []]

/-- An action map whose ssh mapper derives from neither mixin. -/
def sshMap : ActionMap :=
  [("unknown", MapperClass.mk false false false),
   ("ssh", MapperClass.mk false false false)]

/-- An action node with both an ok and an error edge, plus a file child,
whose mapper does not derive from FileMixin. -/
def fileAction : XmlElem :=
  .mk "action" [("name", "task")]
    [.mk "ssh" [] [], .mk "ok" [("to", "E")] [], .mk "error" [("to", "K")] [],
     .mk "file" [] []]

/-- An action node of sub-type ssh lacking the error edge. -/
def missingErrAction : XmlElem :=
  .mk "action" [("name", "task1")]
    [.mk "ssh" [] [], .mk "ok" [("to", "J")] []]

/-- A well-formed action node of sub-type ssh. -/
def forkAction : XmlElem :=
  .mk "action" [("name", "task1")]
    [.mk "ssh" [] [], .mk "ok" [("to", "J")] [], .mk "error" [("to", "K")] []]

/-- A fork node with one parallel path starting at task1. -/
def forkElem : XmlElem :=
  .mk "fork" [("name", "F")] [.mk "path" [("start", "task1")] []]

/-- A workflow root holding the fork and the action node its path starts
at. -/
def forkRoot : XmlElem := .mk "workflow" [] [forkElem, forkAction]

/-- The node mapping after the fork and its path's action are parsed. -/
def forkParsedNodes : Nodes :=
  [("F", freshPNode "fork" "F" ["task1"] none .dummy),
   ("task1", freshPNode "ssh" "task1" ["J"] (some "K") .dummy)]

/-- An fs element with two operation children. -/
def fs2Node : XmlElem :=
  .mk "fs" [] [.mk "mkdir" [("path", "/a")] [], .mk "delete" [("path", "/b")] []]

/-- A three-element sub-operator list. -/
def demoOps : List SubOperator :=
  [SubOperator.mk "t1", SubOperator.mk "t2", SubOperator.mk "t3"]

/-! Dictionary lemmas: how dictGet, hasKey and keys behave under updAt and
dictInsert. -/

theorem dictGet_nil (k : String) : dictGet [] k = none := rfl

theorem dictGet_cons (k' : String) (p : PNode) (t : Nodes) (k : String) :
    dictGet ((k', p) :: t) k = if k' = k then some p else dictGet t k := by
  by_cases h : k' = k <;> simp [dictGet, List.find?_cons, h]

theorem updAt_map_fst (m : Nodes) (k : String) (f : PNode → PNode) :
    (updAt m k f).map Prod.fst = m.map Prod.fst := by
  simp only [updAt, List.map_map]
  apply List.map_congr_left
  intro q _
  by_cases h : q.1 = k <;> simp [h]

theorem hasKey_iff (m : Nodes) (k : String) :
    hasKey m k = true ↔ k ∈ m.map Prod.fst := by
  simp [hasKey, List.any_eq_true, List.mem_map]

theorem updAt_hasKey (m : Nodes) (k : String) (f : PNode → PNode) (j : String) :
    hasKey (updAt m k f) j = hasKey m j := by
  induction m with
  | nil => rfl
  | cons q t ih =>
    simp only [updAt, List.map_cons, hasKey, List.any_cons] at ih ⊢
    by_cases h : q.1 = k <;> simp [h, ih]

theorem dictGet_updAt (m : Nodes) (k : String) (f : PNode → PNode) (j : String) :
    dictGet (updAt m k f) j = if j = k then (dictGet m j).map f else dictGet m j := by
  induction m with
  | nil => by_cases h : j = k <;> simp [updAt, dictGet, h]
  | cons q t ih =>
    rcases q with ⟨k', p⟩
    simp only [updAt, List.map_cons] at ih ⊢
    by_cases hk' : k' = k
    · subst hk'
      by_cases hj : k' = j
      · subst hj
        simp [dictGet_cons, ih]
      · rw [if_pos rfl]
        rw [dictGet_cons, dictGet_cons, if_neg hj, if_neg hj, ih]
    · rw [if_neg hk']
      by_cases hj : k' = j
      · subst hj
        have hjk : ¬k' = k := hk'
        rw [dictGet_cons, dictGet_cons, if_pos rfl, if_pos rfl, if_neg hjk]
      · rw [dictGet_cons, dictGet_cons, if_neg hj, if_neg hj, ih]

theorem dictGet_isSome (m : Nodes) (k : String) :
    (dictGet m k).isSome = hasKey m k := by
  induction m with
  | nil => rfl
  | cons q t ih =>
    rcases q with ⟨k', p⟩
    rw [dictGet_cons]
    by_cases h : k' = k
    · simp [hasKey, List.any_cons, h]
    · rw [if_neg h]
      simp only [hasKey, List.any_cons, decide_eq_true_eq] at ih ⊢
      simp [h, ih]

theorem updAt_of_hasKey_false (m : Nodes) (k : String) (f : PNode → PNode)
    (h : hasKey m k = false) : updAt m k f = m := by
  induction m with
  | nil => rfl
  | cons q t ih =>
    simp only [hasKey, List.any_cons, Bool.or_eq_false_iff, decide_eq_false_iff_not] at h
    simp only [updAt, List.map_cons, if_neg h.1]
    have := ih (by simp [hasKey, h.2])
    simp only [updAt] at this
    rw [this]

theorem updAt_append (m l : Nodes) (k : String) (f : PNode → PNode) :
    updAt (m ++ l) k f = updAt m k f ++ updAt l k f := by
  simp [updAt]

theorem updAt_updAt (m : Nodes) (k : String) (f g : PNode → PNode) :
    updAt (updAt m k f) k g = updAt m k (fun p => g (f p)) := by
  simp only [updAt, List.map_map]
  apply List.map_congr_left
  intro q _
  by_cases h : q.1 = k <;> simp [h]

theorem hasKey_append (m l : Nodes) (k : String) :
    hasKey (m ++ l) k = (hasKey m k || hasKey l k) := by
  simp [hasKey]

theorem dictGet_append_right (m l : Nodes) (k : String) (h : hasKey m k = false) :
    dictGet (m ++ l) k = dictGet l k := by
  induction m with
  | nil => rfl
  | cons q t ih =>
    simp only [hasKey, List.any_cons, Bool.or_eq_false_iff, decide_eq_false_iff_not] at h
    rw [List.cons_append, dictGet_cons, if_neg h.1]
    exact ih (by simp [hasKey, h.2])

theorem dictGet_dictInsert_self (m : Nodes) (k : String) (v : PNode) :
    dictGet (dictInsert m k v) k = some v := by
  unfold dictInsert
  by_cases h : hasKey m k
  · rw [if_pos h, dictGet_updAt, if_pos rfl]
    have hs : (dictGet m k).isSome = true := by rw [dictGet_isSome, h]
    rcases Option.isSome_iff_exists.mp hs with ⟨p, hp⟩
    rw [hp]
    rfl
  · rw [if_neg h, dictGet_append_right _ _ _ (by simpa using h), dictGet_cons, if_pos rfl]

theorem dictInsert_dictInsert (m : Nodes) (k : String) (v1 v2 : PNode) :
    dictInsert (dictInsert m k v1) k v2 = dictInsert m k v2 := by
  unfold dictInsert
  by_cases h : hasKey m k
  · rw [if_pos h, if_pos h, updAt_hasKey, if_pos h, updAt_updAt]
  · rw [if_neg h, if_neg h]
    have h2 : hasKey (m ++ [(k, v1)]) k = true := by
      simp [hasKey_append, hasKey, List.any_cons]
    rw [if_pos h2, updAt_append, updAt_of_hasKey_false _ _ _ (by simpa using h)]
    simp [updAt]

/-! Characterization of create_relations: which relations the fold
produces, and that success is exactly reference resolution. -/

theorem downstream_fold_char (m : Nodes) (last : String) (ds : List String)
    (rels : Finset Relation) (h : ∀ d ∈ ds, hasKey m d = true) :
    ∃ s, (ds.foldlM (fun acc d =>
        match dictGet m d with
        | some dn => pure (insert (Relation.mk last dn.firstTaskId) acc)
        | none => Except.error ("KeyError: " ++ d)) rels :
          Except String (Finset Relation)) = .ok s ∧
      ∀ r, r ∈ s ↔ r ∈ rels ∨ ∃ d ∈ ds, ∃ dn, dictGet m d = some dn ∧
        r = Relation.mk last dn.firstTaskId := by
  induction ds generalizing rels with
  | nil => exact ⟨rels, rfl, by simp⟩
  | cons d ds ih =>
    have hd : hasKey m d = true := h d (by simp)
    obtain ⟨dn, hdn⟩ := Option.isSome_iff_exists.mp (by rw [dictGet_isSome]; exact hd)
    obtain ⟨s, hs, hchar⟩ := ih (insert (Relation.mk last dn.firstTaskId) rels)
      (fun d' hd' => h d' (List.mem_cons_of_mem _ hd'))
    refine ⟨s, ?_, ?_⟩
    · rw [List.foldlM_cons, hdn]
      exact hs
    · intro r
      rw [hchar r]
      simp only [Finset.mem_insert, List.mem_cons]
      constructor
      · rintro (⟨rfl | hr⟩ | ⟨d', hd', dn', hdn', rfl⟩)
        · exact Or.inr ⟨d, Or.inl rfl, dn, hdn, rfl⟩
        · exact Or.inl hr
        · exact Or.inr ⟨d', Or.inr hd', dn', hdn', rfl⟩
      · rintro (hr | ⟨d', hd' | hd', dn', hdn', rfl⟩)
        · exact Or.inl (Or.inr hr)
        · subst hd'
          rw [hdn] at hdn'
          cases hdn'
          exact Or.inl (Or.inl rfl)
        · exact Or.inr ⟨d', hd', dn', hdn', rfl⟩

theorem create_relations_node_char (m : Nodes) (rels : Finset Relation) (p : PNode)
    (h : resolvedNode m p) :
    ∃ s, create_relations_node m rels p = .ok s ∧
      ∀ r, r ∈ s ↔ r ∈ rels ∨ relFromNode m p r := by
  obtain ⟨s1, hs1, hchar1⟩ := downstream_fold_char m p.lastTaskId p.downstreamNames rels h.1
  unfold create_relations_node
  rw [hs1]
  cases he : p.errorName with
  | none =>
    refine ⟨s1, rfl, ?_⟩
    intro r
    rw [hchar1 r]
    unfold relFromNode
    rw [he]
    simp
  | some e =>
    obtain ⟨en, hen⟩ := Option.isSome_iff_exists.mp
      (by rw [dictGet_isSome]; exact h.2 e he)
    refine ⟨insert (Relation.mk p.lastTaskId en.firstTaskId) s1, by simp [hen], ?_⟩
    intro r
    simp only [Finset.mem_insert, hchar1 r]
    unfold relFromNode
    rw [he]
    constructor
    · rintro (rfl | hr | hr)
      · exact Or.inr (Or.inr ⟨e, rfl, en, hen, rfl⟩)
      · exact Or.inl hr
      · exact Or.inr (Or.inl hr)
    · rintro (hr | hr | ⟨e', he', en', hen', rfl⟩)
      · exact Or.inr (Or.inl hr)
      · exact Or.inr (Or.inr hr)
      · cases he'
        rw [hen] at hen'
        cases hen'
        exact Or.inl rfl

theorem create_relations_fold_char (m : Nodes) (l : Nodes) (rels : Finset Relation)
    (h : ∀ q ∈ l, resolvedNode m q.2) :
    ∃ s, (l.foldlM (fun acc q => create_relations_node m acc q.2) rels) = .ok s ∧
      ∀ r, r ∈ s ↔ r ∈ rels ∨ ∃ q ∈ l, relFromNode m q.2 r := by
  induction l generalizing rels with
  | nil => exact ⟨rels, rfl, by simp⟩
  | cons q l ih =>
    obtain ⟨s1, hs1, hchar1⟩ := create_relations_node_char m rels q.2 (h q (by simp))
    obtain ⟨s, hs, hchar⟩ := ih s1 (fun q' hq' => h q' (List.mem_cons_of_mem _ hq'))
    refine ⟨s, ?_, ?_⟩
    · rw [List.foldlM_cons, hs1]
      exact hs
    · intro r
      rw [hchar r, hchar1 r]
      simp only [List.mem_cons]
      constructor
      · rintro ((hr | hr) | ⟨q', hq', hr⟩)
        · exact Or.inl hr
        · exact Or.inr ⟨q, Or.inl rfl, hr⟩
        · exact Or.inr ⟨q', Or.inr hq', hr⟩
      · rintro (hr | ⟨q', hq' | hq', hr⟩)
        · exact Or.inl (Or.inl hr)
        · subst hq'
          exact Or.inl (Or.inr hr)
        · exact Or.inr ⟨q', hq', hr⟩

theorem create_relations_char (m : Nodes) (rels0 : Finset Relation)
    (h : ∀ q ∈ m, resolvedNode m q.2) :
    ∃ s, create_relations m rels0 = .ok s ∧
      ∀ r, r ∈ s ↔ r ∈ rels0 ∨ ∃ q ∈ m, relFromNode m q.2 r :=
  create_relations_fold_char m m rels0 h

theorem exceptBind_ok {α β : Type} (a : α) (f : α → Except String β) :
    (Except.ok a >>= f) = f a := rfl

theorem exceptBind_error {α β : Type} (e : String) (f : α → Except String β) :
    ((Except.error e : Except String α) >>= f) = Except.error e := rfl

theorem exceptPure {α : Type} (a : α) : (pure a : Except String α) = Except.ok a := rfl

theorem downstream_fold_resolved (m : Nodes) (last : String) (ds : List String)
    (rels s : Finset Relation)
    (h : (ds.foldlM (fun acc d =>
        match dictGet m d with
        | some dn => pure (insert (Relation.mk last dn.firstTaskId) acc)
        | none => Except.error ("KeyError: " ++ d)) rels :
          Except String (Finset Relation)) = .ok s) :
    ∀ d ∈ ds, hasKey m d = true := by
  induction ds generalizing rels with
  | nil => simp
  | cons d ds ih =>
    rw [List.foldlM_cons] at h
    cases hd : dictGet m d with
    | none =>
      simp only [hd, exceptBind_error] at h
      cases h
    | some dn =>
      simp only [hd, exceptPure, exceptBind_ok] at h
      intro d' hd'
      rcases List.mem_cons.mp hd' with rfl | hmem
      · rw [← dictGet_isSome, hd]
        rfl
      · exact ih _ h d' hmem

theorem create_relations_node_resolved (m : Nodes) (rels : Finset Relation)
    (p : PNode) (s : Finset Relation)
    (h : create_relations_node m rels p = .ok s) : resolvedNode m p := by
  unfold create_relations_node at h
  cases hf : (p.downstreamNames.foldlM (fun acc d =>
      match dictGet m d with
      | some dn => pure (insert (Relation.mk p.lastTaskId dn.firstTaskId) acc)
      | none => Except.error ("KeyError: " ++ d)) rels :
        Except String (Finset Relation)) with
  | error e =>
    rw [hf, exceptBind_error] at h
    cases h
  | ok s1 =>
    rw [hf, exceptBind_ok] at h
    refine ⟨downstream_fold_resolved m p.lastTaskId p.downstreamNames rels s1 hf, ?_⟩
    intro e he
    simp only [he] at h
    cases hge : dictGet m e with
    | none =>
      simp only [hge] at h
      cases h
    | some en =>
      rw [← dictGet_isSome, hge]
      rfl

theorem create_relations_fold_resolved (m : Nodes) (l : Nodes)
    (rels s : Finset Relation)
    (h : l.foldlM (fun acc q => create_relations_node m acc q.2) rels = .ok s) :
    ∀ q ∈ l, resolvedNode m q.2 := by
  induction l generalizing rels with
  | nil => simp
  | cons q l ih =>
    rw [List.foldlM_cons] at h
    cases hn : create_relations_node m rels q.2 with
    | error e =>
      rw [hn, exceptBind_error] at h
      cases h
    | ok s1 =>
      rw [hn, exceptBind_ok] at h
      intro q' hq'
      rcases List.mem_cons.mp hq' with rfl | hmem
      · exact create_relations_node_resolved m rels q'.2 s1 hn
      · exact ih _ h q' hmem

/-- C8: relation building is idempotent — running create_relations a
second time, starting from the set produced by the first run over the
unchanged node graph, returns exactly that set: nothing is duplicated (the
relations form a set) and nothing is lost. -/
theorem create_relations_idempotent (m : Nodes) :
    (create_relations m ∅).bind (create_relations m) = create_relations m ∅ := by
  cases h : create_relations m ∅ with
  | error e => rfl
  | ok s =>
    have hres : ∀ q ∈ m, resolvedNode m q.2 :=
      create_relations_fold_resolved m m ∅ s h
    obtain ⟨s0, hs0, hchar0⟩ := create_relations_char m ∅ hres
    have hss : s0 = s := by
      rw [hs0] at h
      injection h
    subst hss
    obtain ⟨s1, hs1, hchar1⟩ := create_relations_char m s0 hres
    have hset : s1 = s0 := by
      apply Finset.ext
      intro r
      have h0 : r ∈ s0 ↔ ∃ q ∈ m, relFromNode m q.2 r := by
        rw [hchar0 r]
        simp
      rw [hchar1 r, h0]
      tauto
    show create_relations m s0 = Except.ok s0
    rw [hs1, hset]

theorem dictGet_mem (m : Nodes) (k : String) (p : PNode)
    (h : dictGet m k = some p) : (k, p) ∈ m := by
  unfold dictGet at h
  cases hf : m.find? (fun q => q.1 = k) with
  | none => rw [hf] at h; cases h
  | some q =>
    rw [hf] at h
    have hq : q.2 = p := by cases h; rfl
    have hmem := List.mem_of_find?_eq_some hf
    have hk : q.1 = k := by simpa using List.find?_some hf
    rcases q with ⟨k', p'⟩
    cases hk
    cases hq
    exact hmem

/-- C2: edge completeness of Relation Building.  Over a well-formed graph
(unique names, resolving references, per-node distinct first and last task
ids, error target distinct from the downstream targets), create_relations
produces, for every node, a relation from its last unit to each downstream
target's first unit, exactly one additional relation to the error target's
first unit when the error name is set (distinct from all of the node's
downstream relations), and no relation originating at the node's last unit
beyond those. -/
theorem create_relations_edge_complete (m : Nodes)
    (hres : ∀ q ∈ m, resolvedNode m q.2)
    (hlast : ∀ q1 ∈ m, ∀ q2 ∈ m, q1.2.lastTaskId = q2.2.lastTaskId → q1 = q2)
    (hfirst : ∀ q1 ∈ m, ∀ q2 ∈ m, q1.2.firstTaskId = q2.2.firstTaskId → q1.1 = q2.1)
    (herrdisj : ∀ q ∈ m, ∀ e, q.2.errorName = some e → e ∉ q.2.downstreamNames) :
    ∃ rels, create_relations m ∅ = .ok rels ∧
      ∀ q ∈ m,
        (∀ d ∈ q.2.downstreamNames, ∃ dn, dictGet m d = some dn ∧
          Relation.mk q.2.lastTaskId dn.firstTaskId ∈ rels) ∧
        (∀ e, q.2.errorName = some e → ∃ en, dictGet m e = some en ∧
          Relation.mk q.2.lastTaskId en.firstTaskId ∈ rels ∧
          ∀ d ∈ q.2.downstreamNames, ∀ dn, dictGet m d = some dn →
            en.firstTaskId ≠ dn.firstTaskId) ∧
        (∀ r ∈ rels, r.from_name = q.2.lastTaskId → relFromNode m q.2 r) := by
  obtain ⟨rels, hok, hchar⟩ := create_relations_char m ∅ hres
  refine ⟨rels, hok, ?_⟩
  intro q hq
  refine ⟨?_, ?_, ?_⟩
  · intro d hd
    obtain ⟨dn, hdn⟩ := Option.isSome_iff_exists.mp
      (by rw [dictGet_isSome]; exact (hres q hq).1 d hd)
    refine ⟨dn, hdn, ?_⟩
    rw [hchar]
    exact Or.inr ⟨q, hq, Or.inl ⟨d, hd, dn, hdn, rfl⟩⟩
  · intro e he
    obtain ⟨en, hen⟩ := Option.isSome_iff_exists.mp
      (by rw [dictGet_isSome]; exact (hres q hq).2 e he)
    refine ⟨en, hen, ?_, ?_⟩
    · rw [hchar]
      exact Or.inr ⟨q, hq, Or.inr ⟨e, he, en, hen, rfl⟩⟩
    · intro d hd dn hdn heq
      have hed : e = d :=
        hfirst (e, en) (dictGet_mem m e en hen) (d, dn) (dictGet_mem m d dn hdn) heq
      exact herrdisj q hq e he (hed ▸ hd)
  · intro r hr hfrom
    rcases (hchar r).mp hr with hempty | ⟨q', hq', hrel⟩
    · cases hempty
    · have hlasteq : q'.2.lastTaskId = q.2.lastTaskId := by
        rcases hrel with ⟨d, hd, dn, hdn, rfl⟩ | ⟨e, he, en, hen, rfl⟩ <;>
          simpa using hfrom
      have : q' = q := hlast q' hq' q hq hlasteq
      exact this ▸ hrel

/-! Characterization of update_trigger_rules: the pass preserves the graph
shape (keys, downstream lists, error names) and sets each node's two
reachability flags according to the edges aimed at it. -/

theorem shapeAt_updAt (m : Nodes) (k : String) (f : PNode → PNode)
    (hf : ∀ p, (f p).downstreamNames = p.downstreamNames ∧ (f p).errorName = p.errorName)
    (j : String) : shapeAt (updAt m k f) j = shapeAt m j := by
  unfold shapeAt
  rw [dictGet_updAt]
  by_cases h : j = k
  · rw [if_pos h]
    cases dictGet m j with
    | none => rfl
    | some p => simp [(hf p).1, (hf p).2]
  · rw [if_neg h]

theorem okFlagAt_set_is_ok (m : Nodes) (d j : String) :
    okFlagAt (updAt m d (fun p => p.set_is_ok true)) j =
      (okFlagAt m j).map (fun b => b || decide (j = d)) := by
  unfold okFlagAt
  rw [dictGet_updAt]
  by_cases h : j = d
  · rw [if_pos h]
    cases dictGet m j with
    | none => rfl
    | some p => simp [PNode.set_is_ok, h]
  · rw [if_neg h]
    cases dictGet m j with
    | none => rfl
    | some p => simp [h]

theorem errFlagAt_set_is_ok (m : Nodes) (d j : String) :
    errFlagAt (updAt m d (fun p => p.set_is_ok true)) j = errFlagAt m j := by
  unfold errFlagAt
  rw [dictGet_updAt]
  by_cases h : j = d
  · rw [if_pos h]
    cases dictGet m j with
    | none => rfl
    | some p => simp [PNode.set_is_ok]
  · rw [if_neg h]

theorem okFlagAt_set_is_error (m : Nodes) (e j : String) :
    okFlagAt (updAt m e (fun p => p.set_is_error true)) j = okFlagAt m j := by
  unfold okFlagAt
  rw [dictGet_updAt]
  by_cases h : j = e
  · rw [if_pos h]
    cases dictGet m j with
    | none => rfl
    | some p => simp [PNode.set_is_error]
  · rw [if_neg h]

theorem errFlagAt_set_is_error (m : Nodes) (e j : String) :
    errFlagAt (updAt m e (fun p => p.set_is_error true)) j =
      (errFlagAt m j).map (fun b => b || decide (j = e)) := by
  unfold errFlagAt
  rw [dictGet_updAt]
  by_cases h : j = e
  · rw [if_pos h]
    cases dictGet m j with
    | none => rfl
    | some p => simp [PNode.set_is_error, h]
  · rw [if_neg h]
    cases dictGet m j with
    | none => rfl
    | some p => simp [h]

theorem okFlagAt_update_rule (m : Nodes) (k j : String) :
    okFlagAt (updAt m k PNode.update_trigger_rule) j = okFlagAt m j := by
  unfold okFlagAt
  rw [dictGet_updAt]
  by_cases h : j = k
  · rw [if_pos h]
    cases dictGet m j with
    | none => rfl
    | some p => simp [PNode.update_trigger_rule]
  · rw [if_neg h]

theorem errFlagAt_update_rule (m : Nodes) (k j : String) :
    errFlagAt (updAt m k PNode.update_trigger_rule) j = errFlagAt m j := by
  unfold errFlagAt
  rw [dictGet_updAt]
  by_cases h : j = k
  · rw [if_pos h]
    cases dictGet m j with
    | none => rfl
    | some p => simp [PNode.update_trigger_rule]
  · rw [if_neg h]

theorem setIsOk_fold_char (ds : List String) (m : Nodes)
    (h : ∀ d ∈ ds, hasKey m d = true) :
    ∃ m1, (ds.foldlM (fun acc d => nodesSetIsOk acc d) m) = .ok m1 ∧
      (∀ j, hasKey m1 j = hasKey m j) ∧
      (∀ j, shapeAt m1 j = shapeAt m j) ∧
      (∀ j, errFlagAt m1 j = errFlagAt m j) ∧
      (∀ j, okFlagAt m1 j = (okFlagAt m j).map (fun b => b || decide (j ∈ ds))) := by
  induction ds generalizing m with
  | nil =>
    refine ⟨m, rfl, fun j => rfl, fun j => rfl, fun j => rfl, fun j => ?_⟩
    cases okFlagAt m j <;> simp
  | cons d ds ih =>
    have hd : hasKey m d = true := h d (by simp)
    have hstep : nodesSetIsOk m d = .ok (updAt m d (fun p => p.set_is_ok true)) := by
      unfold nodesSetIsOk
      rw [hd]
      rfl
    obtain ⟨m1, hm1, hkey, hshape, herr, hok⟩ :=
      ih (updAt m d (fun p => p.set_is_ok true))
        (fun d' hd' => by rw [updAt_hasKey]; exact h d' (List.mem_cons_of_mem _ hd'))
    refine ⟨m1, ?_, ?_, ?_, ?_, ?_⟩
    · rw [List.foldlM_cons, hstep, exceptBind_ok]
      exact hm1
    · intro j
      rw [hkey, updAt_hasKey]
    · intro j
      rw [hshape, shapeAt_updAt]
      intro p
      exact ⟨rfl, rfl⟩
    · intro j
      rw [herr, errFlagAt_set_is_ok]
    · intro j
      rw [hok, okFlagAt_set_is_ok, Option.map_map]
      cases okFlagAt m j with
      | none => rfl
      | some b =>
        simp only [Option.map_some', Function.comp]
        congr 1
        have hiff : (j ∈ d :: ds) ↔ (j = d ∨ j ∈ ds) := List.mem_cons
        rw [decide_eq_decide.mpr hiff, Bool.decide_or, Bool.or_assoc]

theorem errBranch_char (m : Nodes) (errName : Option String)
    (h : ∀ e, errName = some e → hasKey m e = true) :
    ∃ m2, (match errName with
        | some e => nodesSetIsError m e
        | none => pure m : Except String Nodes) = .ok m2 ∧
      (∀ j, hasKey m2 j = hasKey m j) ∧
      (∀ j, shapeAt m2 j = shapeAt m j) ∧
      (∀ j, okFlagAt m2 j = okFlagAt m j) ∧
      (∀ j, errFlagAt m2 j = (errFlagAt m j).map (fun b => b || decide (errName = some j))) := by
  cases errName with
  | none =>
    refine ⟨m, rfl, fun j => rfl, fun j => rfl, fun j => rfl, fun j => ?_⟩
    cases errFlagAt m j <;> simp
  | some e =>
    have he : hasKey m e = true := h e rfl
    refine ⟨updAt m e (fun p => p.set_is_error true), ?_, ?_, ?_, ?_, ?_⟩
    · show nodesSetIsError m e = _
      unfold nodesSetIsError
      rw [he]
      rfl
    · intro j
      rw [updAt_hasKey]
    · intro j
      rw [shapeAt_updAt]
      intro p
      exact ⟨rfl, rfl⟩
    · intro j
      rw [okFlagAt_set_is_error]
    · intro j
      rw [errFlagAt_set_is_error]
      cases errFlagAt m j with
      | none => rfl
      | some b =>
        simp only [Option.map_some']
        congr 1
        have hiff : (j = e) ↔ (some e = some j) :=
          ⟨fun hh => by rw [hh], fun hh => by cases hh; rfl⟩
        rw [decide_eq_decide.mpr hiff]

theorem update_trigger_rules_step_char (m : Nodes) (k : String) (node : PNode)
    (hk : dictGet m k = some node)
    (hds : ∀ d ∈ node.downstreamNames, hasKey m d = true)
    (herr : ∀ e, node.errorName = some e → hasKey m e = true) :
    ∃ m', update_trigger_rules_step m k = .ok m' ∧
      (∀ j, hasKey m' j = hasKey m j) ∧
      (∀ j, shapeAt m' j = shapeAt m j) ∧
      (∀ j, okFlagAt m' j =
        (okFlagAt m j).map (fun b => b || decide (j ∈ node.downstreamNames))) ∧
      (∀ j, errFlagAt m' j =
        (errFlagAt m j).map (fun b => b || decide (node.errorName = some j))) := by
  obtain ⟨m1, hm1, hkey1, hshape1, herr1, hok1⟩ :=
    setIsOk_fold_char node.downstreamNames m hds
  obtain ⟨m2, hm2, hkey2, hshape2, hok2, herr2⟩ := errBranch_char m1 node.errorName
    (fun e he => by rw [hkey1]; exact herr e he)
  refine ⟨updAt m2 k PNode.update_trigger_rule, ?_, ?_, ?_, ?_, ?_⟩
  · simp only [update_trigger_rules_step, hk]
    rw [hm1, exceptBind_ok]
    cases he : node.errorName with
    | some e =>
      simp only [he] at hm2
      show (nodesSetIsError m1 e >>= fun y => pure (updAt y k PNode.update_trigger_rule)) = _
      rw [hm2, exceptBind_ok]
      rfl
    | none =>
      simp only [he] at hm2
      show (pure m1 >>= fun y => pure (updAt y k PNode.update_trigger_rule)) = _
      cases hm2
      rfl
  · intro j
    rw [updAt_hasKey, hkey2, hkey1]
  · intro j
    rw [shapeAt_updAt m2 k PNode.update_trigger_rule (fun p => ⟨rfl, rfl⟩), hshape2, hshape1]
  · intro j
    rw [okFlagAt_update_rule, hok2, hok1]
  · intro j
    rw [errFlagAt_update_rule, herr2, herr1]

theorem update_trigger_rules_fold_char (L : List String) (m : Nodes)
    (h : ∀ k ∈ L, ∃ node, dictGet m k = some node ∧
      (∀ d ∈ node.downstreamNames, hasKey m d = true) ∧
      (∀ e, node.errorName = some e → hasKey m e = true)) :
    ∃ m', L.foldlM update_trigger_rules_step m = .ok m' ∧
      (∀ j, hasKey m' j = hasKey m j) ∧
      (∀ j, shapeAt m' j = shapeAt m j) ∧
      (∀ j, okFlagAt m' j = (okFlagAt m j).map (fun b => b ||
        L.any (fun k => match shapeAt m k with
          | some sh => decide (j ∈ sh.1)
          | none => false))) ∧
      (∀ j, errFlagAt m' j = (errFlagAt m j).map (fun b => b ||
        L.any (fun k => match shapeAt m k with
          | some sh => decide (sh.2 = some j)
          | none => false))) := by
  induction L generalizing m with
  | nil =>
    refine ⟨m, rfl, fun j => rfl, fun j => rfl, fun j => ?_, fun j => ?_⟩ <;>
      cases hj : dictGet m j <;> simp [okFlagAt, errFlagAt, hj]
  | cons k L ih =>
    obtain ⟨node, hk, hds, herrn⟩ := h k (by simp)
    obtain ⟨m1, hm1, hkey1, hshape1, hok1, herr1⟩ :=
      update_trigger_rules_step_char m k node hk hds herrn
    obtain ⟨m', hm', hkey', hshape', hok', herr'⟩ := ih m1 (by
      intro k' hk'
      obtain ⟨node', hk'', hds', herr''⟩ := h k' (List.mem_cons_of_mem _ hk')
      have hsh : shapeAt m1 k' = shapeAt m k' := hshape1 k'
      unfold shapeAt at hsh
      rw [hk''] at hsh
      simp only [Option.map_some'] at hsh
      cases hg1 : dictGet m1 k' with
      | none => rw [hg1] at hsh; cases hsh
      | some node1 =>
        rw [hg1] at hsh
        simp only [Option.map_some'] at hsh
        have hds1 : node1.downstreamNames = node'.downstreamNames := by
          have := congrArg Prod.fst (Option.some.inj hsh)
          simpa using this
        have herr1' : node1.errorName = node'.errorName := by
          have := congrArg Prod.snd (Option.some.inj hsh)
          simpa using this
        refine ⟨node1, rfl, ?_, ?_⟩
        · intro d hd
          rw [hkey1]
          exact hds' d (hds1 ▸ hd)
        · intro e he
          rw [hkey1]
          exact herr'' e (herr1' ▸ he))
    refine ⟨m', ?_, ?_, ?_, ?_, ?_⟩
    · rw [List.foldlM_cons, hm1, exceptBind_ok]
      exact hm'
    · intro j
      rw [hkey', hkey1]
    · intro j
      rw [hshape', hshape1]
    · intro j
      rw [hok' j, hok1 j, Option.map_map]
      have hanyeq : (L.any (fun k => match shapeAt m1 k with
          | some sh => decide (j ∈ sh.1)
          | none => false)) = (L.any (fun k => match shapeAt m k with
          | some sh => decide (j ∈ sh.1)
          | none => false)) := by
        apply congrArg
        funext k'
        rw [hshape1 k']
      rw [hanyeq]
      cases hj : dictGet m j with
      | none => simp [okFlagAt, hj]
      | some p =>
        simp only [okFlagAt, hj, Option.map_some', Function.comp]
        congr 1
        rw [List.any_cons]
        have hshk : shapeAt m k = some (node.downstreamNames, node.errorName) := by
          unfold shapeAt
          rw [hk]
          rfl
        rw [hshk, Bool.or_assoc]
    · intro j
      rw [herr' j, herr1 j, Option.map_map]
      have hanyeq : (L.any (fun k => match shapeAt m1 k with
          | some sh => decide (sh.2 = some j)
          | none => false)) = (L.any (fun k => match shapeAt m k with
          | some sh => decide (sh.2 = some j)
          | none => false)) := by
        apply congrArg
        funext k'
        rw [hshape1 k']
      rw [hanyeq]
      cases hj : dictGet m j with
      | none => simp [errFlagAt, hj]
      | some p =>
        simp only [errFlagAt, hj, Option.map_some', Function.comp]
        congr 1
        rw [List.any_cons]
        have hshk : shapeAt m k = some (node.downstreamNames, node.errorName) := by
          unfold shapeAt
          rw [hk]
          rfl
        rw [hshk, Bool.or_assoc]

theorem mem_dictGet_of_nodup (m : Nodes) (hnd : (m.map Prod.fst).Nodup)
    (k : String) (p : PNode) (hmem : (k, p) ∈ m) : dictGet m k = some p := by
  induction m with
  | nil => cases hmem
  | cons q t ih =>
    rcases q with ⟨k', p'⟩
    simp only [List.map_cons, List.nodup_cons] at hnd
    rcases List.mem_cons.mp hmem with h | h
    · injection h with h1 h2
      subst h1
      subst h2
      rw [dictGet_cons, if_pos rfl]
    · have hne : k' ≠ k := by
        intro he
        subst he
        exact hnd.1 (List.mem_map.mpr ⟨(k', p), h, rfl⟩)
      rw [dictGet_cons, if_neg hne]
      exact ih hnd.2 h

theorem update_trigger_rules_char (m : Nodes)
    (hres : ∀ q ∈ m, resolvedNode m q.2) :
    ∃ m', update_trigger_rules m = .ok m' ∧
      (∀ j, hasKey m' j = hasKey m j) ∧
      (∀ j, shapeAt m' j = shapeAt m j) ∧
      (∀ j, okFlagAt m' j = (okFlagAt m j).map (fun b => b ||
        (m.map Prod.fst).any (fun k => match shapeAt m k with
          | some sh => decide (j ∈ sh.1)
          | none => false))) ∧
      (∀ j, errFlagAt m' j = (errFlagAt m j).map (fun b => b ||
        (m.map Prod.fst).any (fun k => match shapeAt m k with
          | some sh => decide (sh.2 = some j)
          | none => false))) := by
  unfold update_trigger_rules
  apply update_trigger_rules_fold_char
  intro k hkmem
  have hhk : hasKey m k = true := (hasKey_iff m k).mpr hkmem
  obtain ⟨node, hnode⟩ := Option.isSome_iff_exists.mp
    (by rw [dictGet_isSome]; exact hhk)
  obtain ⟨h1, h2⟩ := hres (k, node) (dictGet_mem m k node hnode)
  exact ⟨node, hnode, h1, h2⟩

/-- C1: after update_trigger_rules runs on a completed graph (unique
names, resolving references, flags initially clear, as the parser leaves
them), a node is flagged reachable-on-success exactly when some node's
downstream names contain its name, and reachable-on-error exactly when
some node's error name equals its name. -/
theorem update_trigger_rules_classifies (m : Nodes)
    (hnd : (m.map Prod.fst).Nodup)
    (hres : ∀ q ∈ m, resolvedNode m q.2)
    (hflags : ∀ q ∈ m, q.2.is_ok = false ∧ q.2.is_error = false) :
    ∃ m', update_trigger_rules m = .ok m' ∧
      ∀ k p', dictGet m' k = some p' →
        ((p'.is_ok = true ↔ ∃ q ∈ m, k ∈ q.2.downstreamNames) ∧
         (p'.is_error = true ↔ ∃ q ∈ m, q.2.errorName = some k)) := by
  obtain ⟨m', hok, hkey, _hshape, hokf, herrf⟩ := update_trigger_rules_char m hres
  refine ⟨m', hok, ?_⟩
  intro k p' hp'
  have hkk : hasKey m k = true := by
    rw [← hkey, ← dictGet_isSome, hp']
    rfl
  obtain ⟨p, hp⟩ := Option.isSome_iff_exists.mp
    (by rw [dictGet_isSome]; exact hkk)
  have hflag := hflags (k, p) (dictGet_mem m k p hp)
  constructor
  · have h1 := hokf k
    unfold okFlagAt at h1
    rw [hp', hp] at h1
    simp only [Option.map_some'] at h1
    rw [Option.some.injEq] at h1
    have hfo : p.is_ok = false := hflag.1
    rw [h1, hfo, Bool.false_or, List.any_eq_true]
    constructor
    · rintro ⟨k', hk'mem, hmatch⟩
      obtain ⟨nd, hnd'⟩ := Option.isSome_iff_exists.mp
        (by rw [dictGet_isSome]; exact (hasKey_iff m k').mpr hk'mem)
      unfold shapeAt at hmatch
      rw [hnd'] at hmatch
      simp only [Option.map_some', decide_eq_true_eq] at hmatch
      exact ⟨(k', nd), dictGet_mem m k' nd hnd', hmatch⟩
    · rintro ⟨q, hq, hkds⟩
      refine ⟨q.1, List.mem_map.mpr ⟨q, hq, rfl⟩, ?_⟩
      have hdq : dictGet m q.1 = some q.2 := mem_dictGet_of_nodup m hnd q.1 q.2 (by
        rcases q with ⟨a, b⟩
        exact hq)
      unfold shapeAt
      rw [hdq]
      simp [hkds]
  · have h2 := herrf k
    unfold errFlagAt at h2
    rw [hp', hp] at h2
    simp only [Option.map_some'] at h2
    rw [Option.some.injEq] at h2
    have hfe : p.is_error = false := hflag.2
    rw [h2, hfe, Bool.false_or, List.any_eq_true]
    constructor
    · rintro ⟨k', hk'mem, hmatch⟩
      obtain ⟨nd, hnd'⟩ := Option.isSome_iff_exists.mp
        (by rw [dictGet_isSome]; exact (hasKey_iff m k').mpr hk'mem)
      unfold shapeAt at hmatch
      rw [hnd'] at hmatch
      simp only [Option.map_some', decide_eq_true_eq] at hmatch
      exact ⟨(k', nd), dictGet_mem m k' nd hnd', hmatch⟩
    · rintro ⟨q, hq, hkerr⟩
      refine ⟨q.1, List.mem_map.mpr ⟨q, hq, rfl⟩, ?_⟩
      have hdq : dictGet m q.1 = some q.2 := mem_dictGet_of_nodup m hnd q.1 q.2 (by
        rcases q with ⟨a, b⟩
        exact hq)
      unfold shapeAt
      rw [hdq]
      simp [hkerr]

theorem hasKey_perm (m₁ m₂ : Nodes) (hperm : m₁.Perm m₂) (k : String) :
    hasKey m₁ k = hasKey m₂ k := by
  rw [Bool.eq_iff_iff, hasKey_iff, hasKey_iff]
  exact (hperm.map Prod.fst).mem_iff

theorem dictGet_perm (m₁ m₂ : Nodes) (hperm : m₁.Perm m₂)
    (hnd : (m₁.map Prod.fst).Nodup) (k : String) :
    dictGet m₁ k = dictGet m₂ k := by
  have hnd₂ : (m₂.map Prod.fst).Nodup := ((hperm.map Prod.fst).nodup_iff).mp hnd
  cases h : dictGet m₁ k with
  | none =>
    cases h2 : dictGet m₂ k with
    | none => rfl
    | some p =>
      have := mem_dictGet_of_nodup m₁ hnd k p (hperm.mem_iff.mpr (dictGet_mem m₂ k p h2))
      rw [h] at this
      cases this
  | some p =>
    exact (mem_dictGet_of_nodup m₂ hnd₂ k p (hperm.mem_iff.mp (dictGet_mem m₁ k p h))).symm

/-- C3 (amended): the final classification pair (is_reachable_on_success,
is_reachable_on_error) of every node depends only on the node set, not on
the insertion order: running the Trigger-Rule pass over any two
permutations of the same well-formed node set yields identical per-node
flag pairs.  (The trigger policy itself is computed once per node during
the same traversal, against the edges seen so far, and is therefore not
order-independent; see the counterexample.) -/
theorem classification_order_invariant (m₁ m₂ : Nodes)
    (hperm : m₁.Perm m₂)
    (hnd : (m₁.map Prod.fst).Nodup)
    (hres : ∀ q ∈ m₁, resolvedNode m₁ q.2) :
    ∃ r₁ r₂, update_trigger_rules m₁ = .ok r₁ ∧ update_trigger_rules m₂ = .ok r₂ ∧
      ∀ k, (dictGet r₁ k).map (fun p => (p.is_ok, p.is_error)) =
           (dictGet r₂ k).map (fun p => (p.is_ok, p.is_error)) := by
  have hget : ∀ k, dictGet m₁ k = dictGet m₂ k := dictGet_perm m₁ m₂ hperm hnd
  have hshapeeq : ∀ k, shapeAt m₁ k = shapeAt m₂ k := by
    intro k
    unfold shapeAt
    rw [hget]
  have hkeyeq : ∀ k, hasKey m₁ k = hasKey m₂ k := hasKey_perm m₁ m₂ hperm
  have hres₂ : ∀ q ∈ m₂, resolvedNode m₂ q.2 := by
    intro q hq
    obtain ⟨hr1, hr2⟩ := hres q (hperm.mem_iff.mpr hq)
    exact ⟨fun d hd => by rw [← hkeyeq]; exact hr1 d hd,
           fun e he => by rw [← hkeyeq]; exact hr2 e he⟩
  obtain ⟨r₁, hok₁, hkey₁, _hsh₁, hokf₁, herrf₁⟩ := update_trigger_rules_char m₁ hres
  obtain ⟨r₂, hok₂, hkey₂, _hsh₂, hokf₂, herrf₂⟩ := update_trigger_rules_char m₂ hres₂
  refine ⟨r₁, r₂, hok₁, hok₂, ?_⟩
  intro k
  have hany_ok : ((m₁.map Prod.fst).any (fun k' => match shapeAt m₁ k' with
      | some sh => decide (k ∈ sh.1)
      | none => false)) = ((m₂.map Prod.fst).any (fun k' => match shapeAt m₂ k' with
      | some sh => decide (k ∈ sh.1)
      | none => false)) := by
    have hfun : (fun k' => match shapeAt m₁ k' with
        | some sh => decide (k ∈ sh.1)
        | none => false) = (fun k' => match shapeAt m₂ k' with
        | some sh => decide (k ∈ sh.1)
        | none => false) := by
      funext k'
      rw [hshapeeq k']
    rw [hfun]
    rw [Bool.eq_iff_iff, List.any_eq_true, List.any_eq_true]
    constructor
    · rintro ⟨x, hx, hfx⟩
      exact ⟨x, (hperm.map Prod.fst).mem_iff.mp hx, hfx⟩
    · rintro ⟨x, hx, hfx⟩
      exact ⟨x, (hperm.map Prod.fst).mem_iff.mpr hx, hfx⟩
  have hany_err : ((m₁.map Prod.fst).any (fun k' => match shapeAt m₁ k' with
      | some sh => decide (sh.2 = some k)
      | none => false)) = ((m₂.map Prod.fst).any (fun k' => match shapeAt m₂ k' with
      | some sh => decide (sh.2 = some k)
      | none => false)) := by
    have hfun : (fun k' => match shapeAt m₁ k' with
        | some sh => decide (sh.2 = some k)
        | none => false) = (fun k' => match shapeAt m₂ k' with
        | some sh => decide (sh.2 = some k)
        | none => false) := by
      funext k'
      rw [hshapeeq k']
    rw [hfun]
    rw [Bool.eq_iff_iff, List.any_eq_true, List.any_eq_true]
    constructor
    · rintro ⟨x, hx, hfx⟩
      exact ⟨x, (hperm.map Prod.fst).mem_iff.mp hx, hfx⟩
    · rintro ⟨x, hx, hfx⟩
      exact ⟨x, (hperm.map Prod.fst).mem_iff.mpr hx, hfx⟩
  have hok_eq : okFlagAt r₁ k = okFlagAt r₂ k := by
    rw [hokf₁ k, hokf₂ k]
    unfold okFlagAt
    rw [hget k, hany_ok]
  have herr_eq : errFlagAt r₁ k = errFlagAt r₂ k := by
    rw [herrf₁ k, herrf₂ k]
    unfold errFlagAt
    rw [hget k, hany_err]
  unfold okFlagAt at hok_eq
  unfold errFlagAt at herr_eq
  cases h1 : dictGet r₁ k with
  | none =>
    cases h2 : dictGet r₂ k with
    | none => rfl
    | some p₂ =>
      rw [h1, h2] at hok_eq
      cases hok_eq
  | some p₁ =>
    cases h2 : dictGet r₂ k with
    | none =>
      rw [h1, h2] at hok_eq
      cases hok_eq
    | some p₂ =>
      rw [h1, h2] at hok_eq
      rw [h1, h2] at herr_eq
      simp only [Option.map_some', Option.some.injEq] at hok_eq herr_eq ⊢
      rw [hok_eq, herr_eq]

theorem update_trigger_rules_classifies_witness :
    (∃ m', update_trigger_rules demoGraph = .ok m' ∧
      ∀ k p', dictGet m' k = some p' →
        ((p'.is_ok = true ↔ ∃ q ∈ demoGraph, k ∈ q.2.downstreamNames) ∧
         (p'.is_error = true ↔ ∃ q ∈ demoGraph, q.2.errorName = some k))) ∧
    ((update_trigger_rules demoGraph).map (fun m' =>
        ((dictGet m' "A").map (fun p => (p.is_ok, p.is_error)),
         (dictGet m' "B").map (fun p => (p.is_ok, p.is_error)),
         (dictGet m' "K").map (fun p => (p.is_ok, p.is_error)),
         (dictGet m' "end").map (fun p => (p.is_ok, p.is_error)))) =
      .ok (some (true, false), some (true, false), some (false, true),
        some (true, false))) :=
  ⟨update_trigger_rules_classifies demoGraph (by decide) (by decide) (by decide),
   by decide⟩

theorem create_relations_edge_complete_witness :
    ∃ rels, create_relations demoGraph ∅ = .ok rels ∧
      ∀ q ∈ demoGraph,
        (∀ d ∈ q.2.downstreamNames, ∃ dn, dictGet demoGraph d = some dn ∧
          Relation.mk q.2.lastTaskId dn.firstTaskId ∈ rels) ∧
        (∀ e, q.2.errorName = some e → ∃ en, dictGet demoGraph e = some en ∧
          Relation.mk q.2.lastTaskId en.firstTaskId ∈ rels ∧
          ∀ d ∈ q.2.downstreamNames, ∀ dn, dictGet demoGraph d = some dn →
            en.firstTaskId ≠ dn.firstTaskId) ∧
        (∀ r ∈ rels, r.from_name = q.2.lastTaskId → relFromNode demoGraph q.2 r) :=
  create_relations_edge_complete demoGraph (by decide) (by decide) (by decide)
    (by decide)

theorem trigger_policy_order_dependent :
    cexOrder1.Perm cexOrder2 ∧
    (update_trigger_rules cexOrder1).map (fun r =>
      (dictGet r "A").map (fun p => p.triggerRule)) =
        .ok (some TriggerPolicy.dummy) ∧
    (update_trigger_rules cexOrder2).map (fun r =>
      (dictGet r "A").map (fun p => p.triggerRule)) =
        .ok (some TriggerPolicy.allSuccess) ∧
    TriggerPolicy.dummy ≠ TriggerPolicy.allSuccess := by
  refine ⟨?_, by decide, by decide, by decide⟩
  decide

theorem classification_order_invariant_witness :
    ∃ r₁ r₂, update_trigger_rules cexOrder1 = .ok r₁ ∧
      update_trigger_rules cexOrder2 = .ok r₂ ∧
      ∀ k, (dictGet r₁ k).map (fun p => (p.is_ok, p.is_error)) =
           (dictGet r₂ k).map (fun p => (p.is_ok, p.is_error)) :=
  classification_order_invariant cexOrder1 cexOrder2 (by decide) (by decide)
    (by decide)

/-- Full success characterization of parse_action_node: when every step of
the routine succeeds, the resulting state is the input state with exactly
one entry written under the node's name — the action's own ParsedNode with
the ok target as sole downstream and the error target as error name.  When
the mapper declares a prepare step, the NullMapper placeholder is written
first but under the same key, so it is immediately overwritten. -/
theorem parse_action_node_success (amap : ActionMap) (st : PState) (a : XmlElem)
    (fc okN errN : XmlElem) (clsPair : String × MapperClass)
    (aname name okTo errTo : String)
    (hhead : a.children.head? = some fc)
    (haname : aname = (if (amap.find? (fun q => q.1 = fc.tag)).isSome
      then fc.tag else "unknown"))
    (hcls : amap.find? (fun q => q.1 = aname) = some clsPair)
    (hname : getAttr a "name" = .ok name)
    (hok : a.findChild "ok" = some okN)
    (hokto : getAttr okN "to" = .ok okTo)
    (herr : a.findChild "error" = some errN)
    (herrto : getAttr errN "to" = .ok errTo)
    (hfile : parse_file_nodes a clsPair.2 = .ok ())
    (harch : parse_archive_nodes a clsPair.2 = .ok ()) :
    parse_action_node amap st a =
      .ok { st with nodes := dictInsert st.nodes name (freshPNode aname name [okTo] (some errTo) .dummy) } := by
  subst haname
  unfold parse_action_node
  simp only [hhead, hcls, hname, hok, hokto, herr, herrto, hfile, harch,
    exceptPure, exceptBind_ok]
  by_cases hprep : clsPair.2.hasPrepare
  · simp [hprep, dictInsert_dictInsert]
  · simp [hprep]

theorem parse_action_node_err_of_missing (amap : ActionMap) (st : PState)
    (a : XmlElem)
    (hmiss : a.findChild "ok" = none ∨ a.findChild "error" = none) :
    (parse_action_node amap st a).isOk = false := by
  unfold parse_action_node
  cases hh : a.children.head? with
  | none => rfl
  | some fc =>
    simp only [hh, exceptPure, exceptBind_ok]
    cases hf : amap.find? (fun q => q.1 =
        (if (amap.find? (fun q => q.1 = fc.tag)).isSome then fc.tag else "unknown")) with
    | none =>
      simp only [hf, exceptBind_error]
      rfl
    | some pr =>
      simp only [hf, exceptPure, exceptBind_ok]
      cases hn : getAttr a "name" with
      | error e =>
        simp only [hn, exceptBind_error]
        rfl
      | ok name =>
        simp only [hn, exceptBind_ok]
        rcases hmiss with hm | hm
        · simp only [hm, exceptBind_error]
          rfl
        · cases hok : a.findChild "ok" with
          | none =>
            simp only [hok, exceptBind_error]
            rfl
          | some okN =>
            simp only [hok, exceptPure, exceptBind_ok]
            cases hto : getAttr okN "to" with
            | error e =>
              simp only [hto, exceptBind_error]
              rfl
            | ok okTo =>
              simp only [hto, exceptBind_ok, hm, exceptBind_error]
              rfl

theorem duplicate_name_overwrite_cex :
    (do
      let s1 ← parse_kill_node (PState.mk [] 0) killK
      parse_end_node s1 endK) =
      .ok (PState.mk [("K", freshPNode "end" "K" [] none .dummy)] 0) ∧
    freshPNode "end" "K" [] none .dummy ≠ freshPNode "kill" "K" [] none .oneFailed := by
  decide

/-- C4 (amended): duplicate node names raise no error: parsing a kill node
stores its ParsedNode with a plain dictionary assignment, so a node whose
name already exists in the mapping silently replaces the stored entry —
the later node wins. -/
theorem parse_duplicate_last_write_wins (st : PState) (k : XmlElem) (name : String)
    (hname : getAttr k "name" = .ok name) :
    parse_kill_node st k =
      .ok { st with nodes := dictInsert st.nodes name (freshPNode "kill" name [] none .oneFailed) } ∧
    dictGet (dictInsert st.nodes name (freshPNode "kill" name [] none .oneFailed)) name =
      some (freshPNode "kill" name [] none .oneFailed) := by
  constructor
  · unfold parse_kill_node
    simp only [hname, exceptBind_ok]
    rfl
  · exact dictGet_dictInsert_self st.nodes name _

theorem parse_duplicate_last_write_wins_witness :
    parse_kill_node
        (PState.mk [("K", freshPNode "end" "K" [] none .dummy)] 0) killK =
      .ok (PState.mk [("K", freshPNode "kill" "K" [] none .oneFailed)] 0) ∧
    dictGet
        (dictInsert [("K", freshPNode "end" "K" [] none .dummy)] "K"
          (freshPNode "kill" "K" [] none .oneFailed)) "K" =
      some (freshPNode "kill" "K" [] none .oneFailed) :=
  parse_duplicate_last_write_wins
    (PState.mk [("K", freshPNode "end" "K" [] none .dummy)] 0) killK "K" (by decide)

theorem prepare_single_entry_cex :
    parse_action_node prepMap (PState.mk [] 0) prepAction =
      .ok (PState.mk [("task", freshPNode "hive" "task" ["E"] (some "K") .dummy)] 0) ∧
    (freshPNode "hive" "task" ["E"] (some "K") .dummy).mapperType ≠ "null" ∧
    (PState.mk [("task", freshPNode "hive" "task" ["E"] (some "K") .dummy)] 0).nodes.length = 1 := by
  decide

/-- C6 (amended): when an action node's mapper declares a prepare step,
the NullMapper placeholder and the action's own ParsedNode are both stored
under the same key, mapper.name, so the placeholder is immediately
overwritten: every successfully parsed action node leaves exactly one
model entry, stored under the node's name — no source node ever becomes
two model nodes and no prepared-variant name is ever created. -/
theorem action_prepare_single_entry (amap : ActionMap) (st : PState) (a : XmlElem)
    (fc okN errN : XmlElem) (clsPair : String × MapperClass)
    (name okTo errTo : String)
    (hhead : a.children.head? = some fc)
    (hcls : amap.find? (fun q => q.1 =
      (if (amap.find? (fun q => q.1 = fc.tag)).isSome then fc.tag else "unknown")) = some clsPair)
    (hname : getAttr a "name" = .ok name)
    (hok : a.findChild "ok" = some okN)
    (hokto : getAttr okN "to" = .ok okTo)
    (herr : a.findChild "error" = some errN)
    (herrto : getAttr errN "to" = .ok errTo)
    (hfile : parse_file_nodes a clsPair.2 = .ok ())
    (harch : parse_archive_nodes a clsPair.2 = .ok ())
    (hprep : clsPair.2.hasPrepare = true) :
    parse_action_node amap st a =
      .ok { st with nodes := dictInsert st.nodes name (freshPNode (if (amap.find? (fun q => q.1 = fc.tag)).isSome then fc.tag else "unknown") name [okTo] (some errTo) .dummy) } ∧
    dictGet (dictInsert st.nodes name
        (freshPNode (if (amap.find? (fun q => q.1 = fc.tag)).isSome then fc.tag else "unknown") name [okTo] (some errTo) .dummy)) name =
      some (freshPNode (if (amap.find? (fun q => q.1 = fc.tag)).isSome then fc.tag else "unknown") name [okTo] (some errTo) .dummy) :=
  ⟨parse_action_node_success amap st a fc okN errN clsPair _ name okTo errTo
      hhead rfl hcls hname hok hokto herr herrto hfile harch,
   dictGet_dictInsert_self st.nodes name _⟩

theorem action_prepare_single_entry_witness :
    parse_action_node prepMap (PState.mk [] 0) prepAction =
      .ok { PState.mk [] 0 with nodes := dictInsert (PState.mk [] 0).nodes "task" (freshPNode (if (prepMap.find? (fun q => q.1 = (XmlElem.mk "hive" [] []).tag)).isSome then (XmlElem.mk "hive" [] []).tag else "unknown") "task" ["E"] (some "K") .dummy) } ∧
    dictGet (dictInsert (PState.mk [] 0).nodes "task"
        (freshPNode (if (prepMap.find? (fun q => q.1 = (XmlElem.mk "hive" [] []).tag)).isSome then (XmlElem.mk "hive" [] []).tag else "unknown") "task" ["E"] (some "K") .dummy)) "task" =
      some (freshPNode (if (prepMap.find? (fun q => q.1 = (XmlElem.mk "hive" [] []).tag)).isSome then (XmlElem.mk "hive" [] []).tag else "unknown") "task" ["E"] (some "K") .dummy) :=
  action_prepare_single_entry prepMap (PState.mk [] 0) prepAction
    (XmlElem.mk "hive" [] []) (XmlElem.mk "ok" [("to", "E")] [])
    (XmlElem.mk "error" [("to", "K")] []) ("hive", MapperClass.mk true true true)
    "task" "E" "K" rfl rfl rfl rfl rfl rfl rfl rfl rfl rfl

theorem file_capability_error_cex :
    parse_action_node sshMap (PState.mk [] 0) fileAction =
      .error "The operator does not derive from FileMixin" ∧
    (fileAction.findChild "ok").isSome = true ∧
    (fileAction.findChild "error").isSome = true := by
  decide

/-- C7 (amended): an action node lacking an ok edge or lacking an error
edge always fails to parse; conversely, when both edges with targets are
present, the action sub-type resolves, and any file or archive children
are supported by the strategy's capabilities, parsing succeeds, appends
the ok target as the node's sole downstream name and records the error
target as its error name.  (A file or archive child on a strategy without
the capability is a further fatal error, so the failure condition is not
limited to the two edges.) -/
theorem parse_action_ok_error_edges (amap : ActionMap) (st : PState) (a : XmlElem) :
    ((a.findChild "ok" = none ∨ a.findChild "error" = none) →
      (parse_action_node amap st a).isOk = false) ∧
    (∀ fc okN errN clsPair name okTo errTo,
      a.children.head? = some fc →
      amap.find? (fun q => q.1 =
        (if (amap.find? (fun q => q.1 = fc.tag)).isSome then fc.tag else "unknown")) = some clsPair →
      getAttr a "name" = .ok name →
      a.findChild "ok" = some okN →
      getAttr okN "to" = .ok okTo →
      a.findChild "error" = some errN →
      getAttr errN "to" = .ok errTo →
      parse_file_nodes a clsPair.2 = .ok () →
      parse_archive_nodes a clsPair.2 = .ok () →
      ∃ st', parse_action_node amap st a = .ok st' ∧
        ∃ p, dictGet st'.nodes name = some p ∧
          p.downstreamNames = [okTo] ∧ p.errorName = some errTo) := by
  constructor
  · exact parse_action_node_err_of_missing amap st a
  · intro fc okN errN clsPair name okTo errTo hhead hcls hname hok hokto herr herrto hfile harch
    refine ⟨_, parse_action_node_success amap st a fc okN errN clsPair _ name okTo errTo
      hhead rfl hcls hname hok hokto herr herrto hfile harch, ?_⟩
    exact ⟨_, dictGet_dictInsert_self st.nodes name _, rfl, rfl⟩

theorem parse_action_ok_error_edges_witness :
    (parse_action_node sshMap (PState.mk [] 0) missingErrAction).isOk = false ∧
    (∃ st', parse_action_node sshMap (PState.mk [] 0) forkAction = .ok st' ∧
      ∃ p, dictGet st'.nodes "task1" = some p ∧
        p.downstreamNames = ["J"] ∧ p.errorName = some "K") :=
  ⟨(parse_action_ok_error_edges sshMap (PState.mk [] 0) missingErrAction).1 (Or.inr rfl),
   (parse_action_ok_error_edges sshMap (PState.mk [] 0) forkAction).2
     (XmlElem.mk "ssh" [] []) (XmlElem.mk "ok" [("to", "J")] [])
     (XmlElem.mk "error" [("to", "K")] []) ("ssh", MapperClass.mk false false false)
     "task1" "J" "K" rfl rfl rfl rfl rfl rfl rfl rfl rfl⟩

theorem fork_keeps_parsed_subtree_cex :
    parse_fork_node 5 sshMap forkRoot (PState.mk [] 0) forkElem =
      .ok (PState.mk forkParsedNodes 0, forkRoot) ∧
    hasKey forkParsedNodes "task1" = true ∧
    (find_node_by_name forkRoot "task1").isSome = true :=
  ⟨rfl, by decide, rfl⟩

/-- C5 (amended): fork parsing recursively parses each referenced path's
sub-tree in place before returning, and removes the path's node from the
source tree's further root-level traversal exactly when the recursive
parse did NOT fold it into the node graph (its name is absent from the
node mapping afterwards); a successfully folded sub-tree stays in the
source tree. -/
theorem fork_parses_and_prunes_unfolded (fuel : Nat) (amap : ActionMap)
    (root : XmlElem) (st : PState) (fork pathChild pathEl : XmlElem)
    (fname s pname : String) (st3 : PState) (root3 : XmlElem)
    (hname : getAttr fork "name" = .ok fname)
    (hchildren : fork.children = [pathChild])
    (htag : strContains pathChild.tag "path" = true)
    (hstart : getAttr pathChild "start" = .ok s)
    (hfind : find_node_by_name root s = some pathEl)
    (hpname : getAttr pathEl "name" = .ok pname)
    (hsub : parse_node fuel amap root
      (PState.mk (updAt (dictInsert st.nodes fname (freshPNode "fork" fname [] none .dummy)) fname (fun p => p.add_downstream_node_name pname)) st.uuidCounter)
      pathEl = .ok (st3, root3)) :
    parse_fork_node fuel amap root st fork =
      .ok (st3, if hasKey st3.nodes pname then root3 else root3.removeChildNamed pname) := by
  unfold parse_fork_node parse_fork_node_body
  simp only [hname, exceptBind_ok, hchildren, List.foldlM_cons, List.foldlM_nil,
    htag, if_true, hstart, hfind, hpname, exceptPure, hsub, List.nil_append]
  by_cases hk : hasKey st3.nodes pname <;> simp [hk] <;> rfl

theorem fork_parses_and_prunes_unfolded_witness :
    parse_fork_node 5 sshMap forkRoot (PState.mk [] 0) forkElem =
      .ok (PState.mk forkParsedNodes 0,
        if hasKey (PState.mk forkParsedNodes 0).nodes "task1" then forkRoot
        else forkRoot.removeChildNamed "task1") :=
  fork_parses_and_prunes_unfolded 5 sshMap forkRoot (PState.mk [] 0) forkElem
    (XmlElem.mk "path" [("start", "task1")] []) forkAction "F" "task1" "task1"
    (PState.mk forkParsedNodes 0) forkRoot rfl rfl (by decide) rfl rfl rfl rfl

/-- C9: the conversion is all-or-nothing with respect to output.  In
convert, parsing, relation building and trigger resolution all run before
the output directory is recreated or the DAG file is written, so whenever
any of those phases fails, the effect list is empty: no output artifact is
produced. -/
theorem convert_no_output_on_error (fuel : Nat) (amap : ActionMap)
    (root : XmlElem) (e : String)
    (h : (convert fuel amap root).1 = .error e) :
    (convert fuel amap root).2 = [] := by
  unfold convert at h ⊢
  cases hx : convert_phases fuel amap root with
  | error e' =>
    rfl
  | ok r =>
    rw [hx] at h
    cases h

theorem convert_no_output_on_error_witness :
    (convert 5 [] (XmlElem.mk "workflow" [] [])).2 = [] :=
  convert_no_output_on_error 5 [] (XmlElem.mk "workflow" [] [])
    "IndexError: list index out of range" (by decide)

theorem fs_mapM_enumFrom (name : String) (children : List XmlElem) (n : Nat)
    (h : ∀ c ∈ children, FS_OPERATION_MAPPERS.contains c.tag) :
    (children.enumFrom n).mapM (fun q => parse_fs_action name q.1 q.2) =
      .ok ((children.enumFrom n).map
        (fun q => SubOperator.mk (name ++ "_fs_" ++ toString q.1))) := by
  induction children generalizing n with
  | nil => rfl
  | cons c cs ih =>
    have hc : FS_OPERATION_MAPPERS.contains c.tag = true := h c (by simp)
    have hstep : parse_fs_action name n c =
        Except.ok (SubOperator.mk (name ++ "_fs_" ++ toString n)) := by
      unfold parse_fs_action
      rw [hc]
      rfl
    simp only [List.enumFrom_cons, List.mapM_cons, List.map_cons, hstep,
      ih _ (fun c' hc' => h c' (List.mem_cons_of_mem _ hc')),
      exceptPure, exceptBind_ok]

theorem fs_map_enumFrom_getLast (name : String) (children : List XmlElem) (n : Nat)
    (hne : children ≠ []) :
    ((children.enumFrom n).map
        (fun q => SubOperator.mk (name ++ "_fs_" ++ toString q.1))).getLast? =
      some (SubOperator.mk (name ++ "_fs_" ++ toString (n + children.length - 1))) := by
  induction children generalizing n with
  | nil => cases hne rfl
  | cons c cs ih =>
    cases cs with
    | nil => simp [List.enumFrom]
    | cons c2 t =>
      have ih' := ih (n + 1) (by simp)
      simp only [List.enumFrom_cons, List.map_cons, List.getLast?_cons_cons] at ih' ⊢
      rw [ih']
      have harith : n + 1 + (c2 :: t).length - 1 = n + (c :: c2 :: t).length - 1 := by
        simp only [List.length_cons]
        omega
      rw [harith]
theorem chain_length (ops : List SubOperator) : (chain ops).length = ops.length - 1 := by
  induction ops with
  | nil => rfl
  | cons a l ih =>
    cases l with
    | nil => rfl
    | cons b t =>
      simp only [chain, List.tail_cons, List.zip_cons_cons, List.map_cons,
        List.length_cons] at ih ⊢
      omega

theorem chain_get (ops : List SubOperator) (i : Nat) (a b : SubOperator)
    (ha : ops.get? i = some a) (hb : ops.get? (i + 1) = some b) :
    (chain ops).get? i = some (Relation.mk a.task_id b.task_id) := by
  induction ops generalizing i with
  | nil => cases ha
  | cons x xs ih =>
    cases xs with
    | nil =>
      cases i <;> simp at hb
    | cons y t =>
      cases i with
      | zero =>
        simp only [List.get?_cons_zero, List.get?_cons_succ, Option.some.injEq] at ha hb
        subst ha
        subst hb
        simp [chain, List.zip_cons_cons]
      | succ i =>
        simp only [List.get?_cons_succ] at ha hb
        simp only [chain, List.tail_cons, List.zip_cons_cons, List.map_cons,
          List.get?_cons_succ]
        exact ih i ha hb

/-- C10: for an fs action node, the first and last primitive-unit
identifiers are the boundary elements of its sub-operator sequence — with
zero operation children both equal the mapper name (one dummy
sub-operator); with k operations the first is the name with suffix _fs_0
and the last the name with suffix _fs_(k-1) — and chain produces exactly
max(n-1, 0) relations linking consecutive sub-operator task ids in
order. -/
theorem fs_task_ids_and_chain (name : String) (node : XmlElem)
    (ops : List SubOperator) :
    (node.children = [] →
      get_first_task_id name node = .ok name ∧
      get_last_task_id name node = .ok name) ∧
    (node.children ≠ [] →
      (∀ c ∈ node.children, FS_OPERATION_MAPPERS.contains c.tag) →
      get_first_task_id name node = .ok (name ++ "_fs_0") ∧
      get_last_task_id name node =
        .ok (name ++ "_fs_" ++ toString (node.children.length - 1))) ∧
    ((chain ops).length = ops.length - 1 ∧
      ∀ i a b, ops.get? i = some a → ops.get? (i + 1) = some b →
        (chain ops).get? i = some (Relation.mk a.task_id b.task_id)) := by
  refine ⟨?_, ?_, chain_length ops, fun i a b ha hb => chain_get ops i a b ha hb⟩
  · intro hnil
    unfold get_first_task_id get_last_task_id get_sub_operators
    rw [hnil]
    exact ⟨rfl, rfl⟩
  · intro hne hknown
    obtain ⟨c, cs, hl⟩ := List.exists_cons_of_ne_nil hne
    have hm := fs_mapM_enumFrom name node.children 0 hknown
    have hops : get_sub_operators name node = .ok ((node.children.enumFrom 0).map
        (fun q => SubOperator.mk (name ++ "_fs_" ++ toString q.1))) := by
      unfold get_sub_operators
      rw [if_neg (by rw [hl]; simp)]
      exact hm
    constructor
    · unfold get_first_task_id
      rw [hops, exceptBind_ok, hl]
      simp only [List.enumFrom_cons, List.map_cons, List.head?_cons]
      show Except.ok (name ++ "_fs_" ++ toString 0) = Except.ok (name ++ "_fs_0")
      rw [String.append_assoc]
      rfl
    · unfold get_last_task_id
      rw [hops, exceptBind_ok, fs_map_enumFrom_getLast name node.children 0 hne]
      show Except.ok (name ++ "_fs_" ++ toString (0 + node.children.length - 1)) = _
      rw [Nat.zero_add]

theorem fs_task_ids_and_chain_witness :
    (get_first_task_id "test_id" (XmlElem.mk "fs" [] []) = .ok "test_id" ∧
     get_last_task_id "test_id" (XmlElem.mk "fs" [] []) = .ok "test_id") ∧
    (get_first_task_id "test_id" fs2Node = .ok ("test_id" ++ "_fs_0") ∧
     get_last_task_id "test_id" fs2Node =
       .ok ("test_id" ++ "_fs_" ++ toString (fs2Node.children.length - 1))) ∧
    (chain demoOps).get? 0 = some (Relation.mk "t1" "t2") :=
  ⟨(fs_task_ids_and_chain "test_id" (XmlElem.mk "fs" [] []) []).1 rfl,
   (fs_task_ids_and_chain "test_id" fs2Node []).2.1 (by intro h; cases h) (by decide),
   (fs_task_ids_and_chain "test_id" (XmlElem.mk "fs" [] []) demoOps).2.2.2 0
     (SubOperator.mk "t1") (SubOperator.mk "t2") rfl rfl⟩
